import Mathlib

/-!
Verification of the YouTube RAG system's content-processing and
session-persistence core (`content_processor.py`, `session_manager.py`,
`rag_engine.py`) against its natural-language specification.

The Python code is shallowly embedded: strings are `String`/`List Char`
(Python `str` is a sequence of code points, as is Lean's `String.data`),
byte strings are `List Nat`, dictionaries with known keys are structures,
dictionary `.get` with a default is `Option.getD`, and fallible external
calls (LLM generation) are oracles `String → Option String` where `none`
models a raised exception.  File-system state is a finite map from session
names to directory contents.  Python functions keep their names in
camel case.
-/

namespace YoutubeRag

/-! ## Python string primitives

Modelled from CPython semantics for the fragment the code uses:
`str.splitlines` (the code's inputs use the universal line breaks
`\n`, `\r\n`, `\r`), `str.strip` (ASCII whitespace), `str.lower`
(ASCII case folding; the code only lowers language codes), slicing,
and `'sep'.join`.
-/

/-- ASCII whitespace stripped by Python `str.strip()`. -/
def isPySpace (c : Char) : Bool :=
  c = ' ' || c = '\t' || c = '\n' || c = '\r' || c = '\x0b' || c = '\x0c'

/-- Python `str.strip()`: drop leading and trailing whitespace. -/
def pyStrip (l : List Char) : List Char :=
  ((l.dropWhile isPySpace).reverse.dropWhile isPySpace).reverse

/-- Auxiliary for `pySplitLines`, carrying the current line (reversed):
`\r\n` counts as a single break, `\n` and `\r` alone as one break
each. -/
def splitLinesAux : List Char → List Char → List (List Char)
  | [], acc => if acc.isEmpty then [] else [acc.reverse]
  | '\r' :: '\n' :: rest, acc => acc.reverse :: splitLinesAux rest []
  | '\n' :: rest, acc => acc.reverse :: splitLinesAux rest []
  | '\r' :: rest, acc => acc.reverse :: splitLinesAux rest []
  | c :: rest, acc => splitLinesAux rest (c :: acc)

/-- Python `str.splitlines()` on the line breaks occurring in the data. -/
def pySplitLines (l : List Char) : List (List Char) :=
  splitLinesAux l []

/-- Python `'\n'.join(lines)`. -/
def joinNL : List (List Char) → List Char
  | [] => []
  | [l] => l
  | l :: ls => l ++ '\n' :: joinNL ls

/-- Python `str.lower()` restricted to ASCII (the code lowers only
language codes such as `"ZH"`). -/
def pyLower (s : String) : String :=
  ⟨s.data.map fun c => if 'A' ≤ c && c ≤ 'Z' then Char.ofNat (c.toNat + 32) else c⟩

/-- Python `s[:n]` on a string (slice by code points). -/
def pySlice (s : String) (n : Nat) : String :=
  ⟨s.data.take n⟩

/-- Does `sub` occur as a contiguous substring of `l`?  Models Python's
`sub in s`. -/
def containsSub (sub : List Char) : List Char → Bool
  | [] => sub.isEmpty
  | c :: rest => sub.isPrefixOf (c :: rest) || containsSub sub rest

/-! ## `ContentProcessor._clean_subtitle_text`

Embeds `content_processor.py` lines 351-373.  A line survives when it is
not blank after stripping, does not start with `WEBVTT` or `NOTE`, does
not contain the cue-timing arrow `-->`, is not a run of one to four
digits (the regex is `^\d{1,4}$`), and is still nonempty after markup
tags are removed and the result is re-stripped.
-/

/-- Scanner for Python's `re.sub(r'<[^>]+>', '', s)`.  The regex engine
scans left to right; at a `<` it consumes a maximal nonempty run of
non-`>` characters followed by `>` and deletes the match, otherwise the
`<` is kept (a bare `<>` or a `<` with no later `>` never matches, and
no match can start at a non-`<` character).  `buf` holds the characters
read since the last unresolved `<` (reversed); `none` means no `<` is
pending.  At the end of input a pending `<` and its run are emitted
unchanged, which agrees with the regex because in that case the rest of
the text contains no `>` and hence no further match. -/
def removeTagsAux : List Char → Option (List Char) → List Char
  | [], none => []
  | [], some buf => '<' :: buf.reverse
  | c :: rest, none =>
    if c = '<' then removeTagsAux rest (some [])
    else c :: removeTagsAux rest none
  | c :: rest, some buf =>
    if c = '>' then
      if buf.isEmpty then '<' :: '>' :: removeTagsAux rest none
      else removeTagsAux rest none
    else removeTagsAux rest (some (c :: buf))

/-- Python `re.sub(r'<[^>]+>', '', s)`. -/
def removeTags (l : List Char) : List Char :=
  removeTagsAux l none

/-- Does a match of the regex `<[^>]+>` start at the head of `l`: a
`<`, at least one non-`>` character, then a `>`? -/
def startsTag : List Char → Bool
  | c :: d :: rest =>
    (c == '<') && (d != '>') && !((d :: rest).dropWhile (fun e => e != '>')).isEmpty
  | _ => false

/-- Does `l` contain a markup tag, i.e. a substring matching
`<[^>]+>`? -/
def hasTag : List Char → Bool
  | [] => false
  | c :: rest => startsTag (c :: rest) || hasTag rest

/-- The regex `^\d{1,4}$` from the cue-index check. -/
def isCueIndexLine (l : List Char) : Bool :=
  decide (1 ≤ l.length) && decide (l.length ≤ 4) && l.all Char.isDigit

/-- Processing of a single line inside `_clean_subtitle_text`'s loop:
`none` means the line is dropped, `some l` that `l` is appended to the
cleaned lines. -/
def processLine (line : List Char) : Option (List Char) :=
  let stripped := pyStrip line
  if stripped.isEmpty then none
  else if "WEBVTT".data.isPrefixOf stripped then none
  else if "NOTE".data.isPrefixOf stripped then none
  else if containsSub "-->".data stripped then none
  else if isCueIndexLine stripped then none
  else
    let stripped2 := pyStrip (removeTags stripped)
    if stripped2.isEmpty then none else some stripped2

/-- `ContentProcessor._clean_subtitle_text` (lines 351-373). -/
def cleanSubtitleText (text : String) : String :=
  if text = "" then text
  else ⟨joinNL ((pySplitLines text.data).filterMap processLine)⟩

/-! ## `ContentProcessor._estimate_tokens` and `_chunk_text_for_summary`

Embeds `content_processor.py` lines 310-349.
-/

/-- `ContentProcessor._estimate_tokens`: `len(text) // 3`. -/
def estimateTokens (text : List Char) : Nat :=
  text.length / 3

/-- Python `line[i:i+max_chars] for i in range(0, len(line), max_chars)`:
split a line into consecutive pieces of `m` characters.  (In the code
`m ≥ 1000`, so `m = 0`, on which Python's `range` would raise, is
unreachable; it returns `[]` here.) -/
def pyChunksOf (m : Nat) (l : List Char) : List (List Char) :=
  if _ : l.isEmpty || m = 0 then []
  else l.take m :: pyChunksOf m (l.drop m)
termination_by l.length
decreasing_by
  rename_i h
  simp at h
  have : 0 < l.length := List.length_pos.mpr h.1
  simp [List.length_drop]
  omega

/-- The accumulation loop of `_chunk_text_for_summary`: greedily gather
whole lines until adding the next (plus its newline) would exceed
`maxChars`, then flush the gathered lines joined by `'\n'`; a line whose
`len(line) + 1` is at least `maxChars` is hard-split into `maxChars`
pieces. -/
def chunkLinesLoop (maxChars : Nat) : List (List Char) → List (List Char) → Nat → List (List Char)
  | [], cur, _ => if cur.isEmpty then [] else [joinNL cur]
  | l :: ls, cur, curLen =>
    let lineLen := l.length + 1
    if curLen + lineLen > maxChars then
      (if cur.isEmpty then [] else [joinNL cur]) ++
        (if lineLen ≥ maxChars then
          pyChunksOf maxChars l ++ chunkLinesLoop maxChars ls [] 0
        else
          chunkLinesLoop maxChars ls [l] lineLen)
    else
      chunkLinesLoop maxChars ls (cur ++ [l]) (curLen + lineLen)

/-- `ContentProcessor._chunk_text_for_summary` (lines 314-349).  The
chunk character budget is `max(1000, int(max_tokens * 0.75))` (the float
product is exact and `int` truncates, i.e. `maxTokens * 3 / 4` in `Nat`),
taken through `safe_tokens` and `max_chars` as in the code. -/
def chunkTextForSummary (text : List Char) (maxTokens : Nat) : List (List Char) :=
  if estimateTokens text ≤ maxTokens then [text]
  else
    let safeTokens := max 1000 (maxTokens * 3 / 4)
    let maxChars := max 1000 safeTokens
    chunkLinesLoop maxChars (pySplitLines text) [] 0

/-! ## UTF-8 for `_sanitize_text_for_storage`

The code measures and truncates by UTF-8 bytes:
`text.encode('utf-8')[:max_bytes].decode('utf-8', errors='ignore')`.
Bytes are modelled as `Nat`.  `utf8Dec` follows the UTF-8 decoder with
CPython's `errors='ignore'` policy: an ill-formed or truncated sequence
is skipped (the scan resumes at the first byte that could not extend
it) and contributes no character.
-/

/-- UTF-8 encoding of one scalar value (a Lean `Char` is a Unicode
scalar value, as is a Python code point outside surrogates). -/
def utf8EncodeChar (c : Char) : List Nat :=
  let v := c.toNat
  if v < 0x80 then [v]
  else if v < 0x800 then [0xC0 + v / 64, 0x80 + v % 64]
  else if v < 0x10000 then
    [0xE0 + v / 4096, 0x80 + v / 64 % 64, 0x80 + v % 64]
  else
    [0xF0 + v / 262144, 0x80 + v / 4096 % 64, 0x80 + v / 64 % 64, 0x80 + v % 64]

/-- Python `s.encode('utf-8')`. -/
def utf8Encode (s : List Char) : List Nat :=
  (s.map utf8EncodeChar).flatten

/-- `len(s.encode('utf-8'))`. -/
def utf8ByteSize (s : List Char) : Nat :=
  (utf8Encode s).length

/-- Is `b` a UTF-8 continuation byte (`0x80..0xBF`)? -/
def isContByte (b : Nat) : Bool :=
  0x80 ≤ b && b ≤ 0xBF

/-- Valid ranges of the first continuation byte after a three-byte lead
(rules out overlong forms and surrogates, as CPython's decoder does). -/
def validCont3 (lead b1 : Nat) : Bool :=
  if lead = 0xE0 then 0xA0 ≤ b1 && b1 ≤ 0xBF
  else if lead = 0xED then 0x80 ≤ b1 && b1 ≤ 0x9F
  else isContByte b1

/-- Valid ranges of the first continuation byte after a four-byte lead
(rules out overlong forms and values above `U+10FFFF`). -/
def validCont4 (lead b1 : Nat) : Bool :=
  if lead = 0xF0 then 0x90 ≤ b1 && b1 ≤ 0xBF
  else if lead = 0xF4 then 0x80 ≤ b1 && b1 ≤ 0x8F
  else isContByte b1

/-- Python `bytes.decode('utf-8', errors='ignore')`: a well-formed
sequence decodes to its scalar value; an ill-formed or truncated
sequence is skipped (the scan resumes at the first byte that could not
extend it) and contributes no character. -/
def utf8Dec : List Nat → List Char
  | [] => []
  | b :: rest =>
    if b < 0x80 then Char.ofNat b :: utf8Dec rest
    else if b < 0xC2 then
      -- stray continuation byte or invalid lead 0xC0/0xC1: skip it
      utf8Dec rest
    else if b < 0xE0 then
      match rest with
      | [] => []
      | b1 :: rest1 =>
        if isContByte b1 then
          Char.ofNat ((b - 0xC0) * 64 + (b1 - 0x80)) :: utf8Dec rest1
        else utf8Dec (b1 :: rest1)
    else if b < 0xF0 then
      match rest with
      | [] => []
      | b1 :: rest1 =>
        if validCont3 b b1 then
          match rest1 with
          | [] => []
          | b2 :: rest2 =>
            if isContByte b2 then
              Char.ofNat ((b - 0xE0) * 4096 + (b1 - 0x80) * 64 + (b2 - 0x80)) ::
                utf8Dec rest2
            else utf8Dec (b2 :: rest2)
        else utf8Dec (b1 :: rest1)
    else if b < 0xF5 then
      match rest with
      | [] => []
      | b1 :: rest1 =>
        if validCont4 b b1 then
          match rest1 with
          | [] => []
          | b2 :: rest2 =>
            if isContByte b2 then
              match rest2 with
              | [] => []
              | b3 :: rest3 =>
                if isContByte b3 then
                  Char.ofNat ((b - 0xF0) * 262144 + (b1 - 0x80) * 4096 +
                    (b2 - 0x80) * 64 + (b3 - 0x80)) :: utf8Dec rest3
                else utf8Dec (b3 :: rest3)
            else utf8Dec (b2 :: rest2)
        else utf8Dec (b1 :: rest1)
    else
      -- invalid lead 0xF5..0xFF: skip it
      utf8Dec rest
termination_by bs => bs.length
decreasing_by all_goals simp <;> omega

/-- `ContentProcessor._sanitize_text_for_storage` (lines 375-389) with
its default `max_bytes = 500_000`. -/
def sanitizeTextForStorage (text : String) (maxBytes : Nat) : String :=
  if text = "" then ""
  else
    let cleaned := cleanSubtitleText text
    if cleaned = "" then ""
    else
      let encoded := utf8Encode cleaned.data
      if encoded.length ≤ maxBytes then cleaned
      else ⟨utf8Dec (encoded.take maxBytes)⟩

/-! ## `ContentProcessor.generate_summary`

Embeds `content_processor.py` lines 142-308.  The LLM is an oracle
`invoke : String → Option String` mapping a rendered prompt to the
generation result; `none` models a raised generation failure.  All
oracle calls happen after `cleaned_text` and `truncated_notice` are
assigned in the `try` body, so the `except` fallback (lines 276-308) can
be expressed in terms of the same values.
-/

/-- Python `'sep'.join(xs)`. -/
def pyJoin (sep : String) : List String → String
  | [] => ""
  | [x] => x
  | x :: xs => x ++ sep ++ pyJoin sep xs

/-- Python `str.strip()` on a `String`. -/
def pyStripStr (s : String) : String :=
  ⟨pyStrip s.data⟩

/-- The `model_limits` dictionary (lines 171-178). -/
def modelLimitsTable : List (String × Nat) :=
  [("gpt-5-mini", 100000), ("gpt-4o-mini", 100000), ("gpt-4o", 100000),
   ("gpt-4-turbo", 100000), ("gpt-4", 6000), ("gpt-3.5-turbo", 12000)]

/-- `model_limits.get(self.model_name, 6000)` (line 180). -/
def modelTokenLimit (model : String) : Nat :=
  (modelLimitsTable.lookup model).getD 6000

/-- Language normalization in `generate_summary` (lines 182-184):
`(language or "en").lower()`, anything outside `{zh, en}` becomes
`en`. -/
def normalizeLanguageEn (language : String) : String :=
  let l := pyLower (if language = "" then "en" else language)
  if l = "zh" || l = "en" then l else "en"

/-- `language_label` (line 186). -/
def languageLabel (language : String) : String :=
  if normalizeLanguageEn language = "zh" then "Simplified Chinese" else "English"

/-- `language_reminder` (line 188). -/
def languageReminder (language : String) : String :=
  if normalizeLanguageEn language = "zh" then "请用简体中文回答。" else "Please respond in English."

/-- The byte-truncated text used for summarization (lines 158-166):
when the cleaned text exceeds 500 000 UTF-8 bytes it is truncated to the
first 500 000 bytes and re-decoded ignoring the torn tail. -/
def summaryInputText (cleaned : String) : String :=
  if (utf8Encode cleaned.data).length > 500000 then
    ⟨utf8Dec ((utf8Encode cleaned.data).take 500000)⟩
  else cleaned

/-- `truncated_notice` (lines 159-166). -/
def summaryTruncNote (cleaned : String) : String :=
  if (utf8Encode cleaned.data).length > 500000 then
    "\n\n⚠️ Note: Transcript truncated to first ~0.5MB to avoid API limits."
  else ""

/-- The direct-path prompt (lines 192-206) as rendered with the
transcript substituted. -/
def directSummaryPrompt (label reminder transcript : String) : String :=
  "You are a helpful assistant skilled at summarizing YouTube videos.  \nI will provide you with the transcript of a video. Please create a concise summary that:  \n\n1. Explains the core topic and main ideas of the video.  \n2. Extracts the key points in a logical order, preferably as a list.  \n3. Highlights any conclusions, recommendations, or methods mentioned.  \n4. Avoids repeating sentences verbatim; paraphrase in your own words.  \n5. Uses simple, clear language so someone who hasn't watched the video can understand.  \n6. Writes the summary in "
    ++ label ++ ".  \n\nNow summarize the following transcript:\n\n" ++ transcript
    ++ "\n\n" ++ reminder

/-- The per-chunk prompt (lines 220-229). -/
def chunkSummaryPrompt (label reminder chunk : String) : String :=
  "Summarize this part of a YouTube video transcript. Focus on:\n1. Main topics and key points\n2. Important information and conclusions\n3. Keep it concise (under 200 words) but comprehensive\n4. Respond in "
    ++ label ++ ".\n\nTranscript part:\n" ++ chunk ++ "\n\n" ++ reminder

/-- The final synthesis prompt (lines 252-266). -/
def finalSynthesisPrompt (label reminder chunkSummaries : String) : String :=
  "You are a helpful assistant skilled at summarizing YouTube videos.\nI will provide you with summaries of different parts of a video transcript. Please create a comprehensive final summary that:\n\n1. Explains the core topic and main ideas of the video.\n2. Extracts the key points in a logical order, preferably as a list.\n3. Highlights any conclusions, recommendations, or methods mentioned.\n4. Avoids repeating information; synthesize and organize the content.\n5. Uses simple, clear language so someone who hasn't watched the video can understand.\n6. Writes the final summary in "
    ++ label ++ ".\n\nChunk summaries to synthesize:\n\n" ++ chunkSummaries
    ++ "\n\n" ++ reminder

/-- The fallback prompt of the `except` branch (lines 282-293). -/
def fallbackSummaryPrompt (label reminder transcript : String) : String :=
  "You are a helpful assistant skilled at summarizing YouTube videos.\nThis is a truncated transcript (beginning portion) of a video. Please create a summary based on available content:\n\n1. Explain what topics are covered in this portion\n2. Extract key points mentioned\n3. Note that this is a partial summary due to length constraints\n4. Write the summary in "
    ++ label ++ ".\n\nTranscript (truncated):\n" ++ transcript ++ "\n\n" ++ reminder

/-- Post-processing of one chunk summary (lines 237-239): strip, then
cap at 1500 characters with an ellipsis. -/
def capChunkSummary (s : String) : String :=
  let t := pyStripStr s
  if t.length > 1500 then pySlice t 1500 ++ "..." else t

/-- The hierarchical branch of `generate_summary` (lines 213-271,
without the final `+ truncated_notice` applied by the caller):
summarize every chunk (any failure aborts the `try` body), join with
blank lines, apply the two truncation guards, and run the synthesis
call. -/
def chunkedSummarize (invoke : String → Option String) (text : String)
    (maxTokens : Nat) (label reminder : String) : Option String := do
  let chunks := (chunkTextForSummary text.data maxTokens).map fun l => (⟨l⟩ : String)
  let chunkSummaries ← chunks.mapM fun c =>
    (invoke (chunkSummaryPrompt label reminder c)).map capChunkSummary
  let combined := pyJoin "\n\n" chunkSummaries
  let combined :=
    if estimateTokens combined.data > maxTokens then
      pySlice combined (maxTokens * 2) ++
        "\n\n(Chunk summaries truncated for final synthesis due to length.)"
    else combined
  let combined :=
    if combined.length > 10000 then
      pySlice combined 10000 ++ "\n\n(Combined summary truncated to keep request small.)"
    else combined
  invoke (finalSynthesisPrompt label reminder combined)

/-- The `try` body of `generate_summary` (lines 146-274): `some s` is a
normal return, `none` a raised generation failure. -/
def generateSummaryTry (invoke : String → Option String) (model content language : String) :
    Option String :=
  let cleaned := cleanSubtitleText content
  if cleaned = "" then some "⚠️ Transcript contains no usable text / 转录内容为空"
  else
    let text := summaryInputText cleaned
    let notice := summaryTruncNote cleaned
    let maxTokens := modelTokenLimit model
    let label := languageLabel language
    let reminder := languageReminder language
    if estimateTokens text.data ≤ maxTokens then
      (invoke (directSummaryPrompt label reminder text)).map fun r => r ++ notice
    else
      (chunkedSummarize invoke text maxTokens label reminder).map fun r => r ++ notice

/-- `ContentProcessor.generate_summary` (lines 142-308), including the
two-tier `except` fallback: retry on the first 2000 characters of the
cleaned text with the partial-summary framing, and on a second failure
return the fixed failure string. -/
def generateSummary (invoke : String → Option String) (model content language : String) :
    String :=
  match generateSummaryTry invoke model content language with
  | some s => s
  | none =>
    let cleaned := cleanSubtitleText content
    let label := languageLabel language
    let reminder := languageReminder language
    match invoke (fallbackSummaryPrompt label reminder (pySlice cleaned 2000)) with
    | some r =>
      "⚠️ Partial Summary (video too long) / 部分摘要（视频过长）:\n\n" ++ r ++
        summaryTruncNote cleaned
    | none =>
      "❌ Unable to generate summary due to text length limitations / 由于文本长度限制无法生成摘要"

/-! ## `SessionManager` data model

Embeds `session_manager.py`.  Document metadata dictionaries are used by
the code only through `.get("source", ...)` and `.get("type", ...)`, so
they are modelled as a structure of those two optional keys; `.get`
with a default is `Option.getD`.  A session directory holds the
`metadata.json` contents (if the file was written) and the chroma
index's chunk list (if the index directory exists); the sessions root
is a finite map from session names to directories.
-/

/-- Document metadata (`doc.metadata`): the `source` and `type` keys. -/
structure DocMeta where
  source : Option String
  mtype : Option String
deriving DecidableEq

/-- `langchain.schema.Document`: page content plus metadata. -/
structure Document where
  page_content : String
  metadata : DocMeta
deriving DecidableEq

/-- One entry of the metadata `summaries` list:
`{"video_url": ..., "summary": ...}`. -/
structure SummaryRecord where
  video_url : String
  summary : String
deriving DecidableEq

/-- One entry of the metadata `documents` list:
`{"content": ..., "metadata": ...}`. -/
structure DocRecord where
  content : String
  metadata : DocMeta
deriving DecidableEq

/-- The `model_config` dictionary as consumed through `.get`. -/
structure ModelConfig where
  model_name : Option String
  chunk_size : Option Nat
  chunk_overlap : Option Nat
deriving DecidableEq

/-- The persisted `metadata.json` contents (`save_session` lines
66-82). -/
structure SessionMetadata where
  session_id : String
  persist_name : String
  created_at : String
  model_name : String
  chunk_size : Nat
  chunk_overlap : Nat
  video_url : String
  video_urls : List String
  content_type : String
  summary : String
  summaries : List SummaryRecord
  document_content : String
  documents : List DocRecord
  chat_history : List (List String)
  language : String
deriving DecidableEq

/-- Python `x or dflt` for a possibly-absent list (`None` and the empty
list are both falsy). -/
def pyOrList (o : Option (List α)) (dflt : List α) : List α :=
  match o with
  | none => dflt
  | some [] => dflt
  | some l => l

/-- Language normalization in `save_session` (lines 52-54): default
`zh`, anything outside `{zh, en}` becomes `en`. -/
def normalizeLanguageZh (language : String) : String :=
  let l := pyLower (if language = "" then "zh" else language)
  if l = "zh" || l = "en" then l else "en"

/-- Serialization of one document into its metadata record (lines
58-64). -/
def docToRecord (d : Document) : DocRecord :=
  ⟨d.page_content, d.metadata⟩

/-- Reconstruction of a document from its stored record
(`load_session` lines 117-123). -/
def recordToDocument (r : DocRecord) : Document :=
  ⟨r.content, r.metadata⟩

/-- The metadata dictionary built by `save_session` (lines 42-82).
`persist_name` is the resolved name (the caller substitutes a fresh
UUID for `None`), `now` the `datetime.now().isoformat()` value. -/
def saveSessionMetadata (document : Document) (summary : String) (cfg : ModelConfig)
    (persist_name : String) (chat_history : Option (List (List String)))
    (language : String) (documents : Option (List Document))
    (summaries : Option (List SummaryRecord)) (now : String) : SessionMetadata :=
  let documents_list := pyOrList documents [document]
  let video_urls := documents_list.map fun d => d.metadata.source.getD ""
  { session_id := persist_name
    persist_name := persist_name
    created_at := now
    model_name := cfg.model_name.getD "gpt-5-mini"
    chunk_size := cfg.chunk_size.getD 1000
    chunk_overlap := cfg.chunk_overlap.getD 20
    video_url := match video_urls with | [] => "" | u :: _ => u
    video_urls := video_urls
    content_type := document.metadata.mtype.getD ""
    summary := summary
    summaries := (summaries.getD [])
    document_content := document.page_content
    documents := documents_list.map docToRecord
    chat_history := (chat_history.getD []).map id
    language := normalizeLanguageZh language }

/-- The dictionary returned by `load_session` (lines 99-151), without
the retriever handle (an external capability re-opened from the index
directory, which never affects the metadata fields). -/
structure LoadedSession where
  document : Document
  summary : String
  metadata : SessionMetadata
  chat_history : List (List String)
  documents : List Document
  summaries : List SummaryRecord
  video_urls : List String
deriving DecidableEq

/-- Reconstruction of the session dictionary from parsed
`metadata.json` (lines 114-151): per-document records when present,
else the single legacy document. -/
def loadSessionFromMetadata (m : SessionMetadata) : LoadedSession :=
  let documents :=
    match m.documents with
    | [] => [⟨m.document_content, ⟨some m.video_url, some m.content_type⟩⟩]
    | ds => ds.map recordToDocument
  { document := documents.headD ⟨"", ⟨none, none⟩⟩
    summary := m.summary
    metadata := m
    chat_history := m.chat_history
    documents := documents
    summaries := m.summaries
    video_urls := m.video_urls }

/-- The in-place metadata update of `append_to_session` (lines
251-268): rewrite the document records, combined content and summary,
summaries, chat history, language and URL list, keeping the remaining
keys. -/
def appendMetadataUpdate (m : SessionMetadata) (documents : List Document)
    (summaries : List SummaryRecord) (combined_summary : String)
    (combined_document : Document) (chat_history : List (List String))
    (language : String) : SessionMetadata :=
  let video_urls := documents.map fun d => d.metadata.source.getD ""
  { m with
    documents := documents.map docToRecord
    document_content := combined_document.page_content
    content_type := combined_document.metadata.mtype.getD m.content_type
    summary := combined_summary
    summaries := summaries
    chat_history := chat_history.map id
    language := language
    video_urls := video_urls
    video_url := match video_urls with | [] => m.video_url | u :: _ => u }

/-- The argument lists built by `YouTubeRAG.add_video_to_session`
(`rag_engine.py` lines 242-248) before calling `append_to_session`:
the new document is appended to the session's document list and a new
`{video_url, summary}` record to its summaries list. -/
def addVideoArgLists (sessionDocs : List Document) (sessionSumms : List SummaryRecord)
    (newDoc : Document) (url newSummary : String) :
    List Document × List SummaryRecord :=
  (sessionDocs ++ [newDoc], sessionSumms ++ [⟨url, newSummary⟩])

/-! ## File-system model for the sessions root -/

/-- One session directory: the parsed `metadata.json` if that file
exists, and the chroma index's chunk list if the index directory
exists. -/
structure SessionDir where
  metadataFile : Option SessionMetadata
  chroma : Option (List Document)
deriving DecidableEq

/-- The sessions root: a finite map from session name to directory. -/
def SessionFS := List (String × SessionDir)

/-- Remove a session directory (`shutil.rmtree`). -/
def fsErase (fs : SessionFS) (name : String) : SessionFS :=
  fs.filter fun e => e.1 != name

/-- Create or replace a session directory. -/
def fsInsert (fs : SessionFS) (name : String) (dir : SessionDir) : SessionFS :=
  (name, dir) :: fsErase fs name

/-- Failure injection points for `save_session`: an exception raised by
the metadata write (lines 84-86) or by the vector-database build (lines
88-90). -/
inductive SaveFailure
  | metadataWrite
  | indexBuild
deriving DecidableEq

/-- `SessionManager.save_session` (lines 26-97) over the file-system
model.  `splitDocs` is the text splitter (chunks of
`RecursiveCharacterTextSplitter.split_documents`), `uuidGen` the fresh
UUID used when `persist_name` is `None`, and `failAt` injects an
exception at the chosen step; the `except` handler logs and returns
`None` without touching the directory. -/
def saveSessionFS (splitDocs : List Document → List Document) (fs : SessionFS)
    (failAt : Option SaveFailure) (document : Document) (summary : String)
    (cfg : ModelConfig) (persist_name : Option String)
    (chat_history : Option (List (List String))) (language : String)
    (documents : Option (List Document)) (summaries : Option (List SummaryRecord))
    (now uuidGen : String) : SessionFS × Option String :=
  let name := persist_name.getD uuidGen
  let fs1 := fsInsert fs name ⟨none, none⟩
  match failAt with
  | some .metadataWrite => (fs1, none)
  | some .indexBuild =>
    let m := saveSessionMetadata document summary cfg name chat_history language
      documents summaries now
    (fsInsert fs1 name ⟨some m, none⟩, none)
  | none =>
    let m := saveSessionMetadata document summary cfg name chat_history language
      documents summaries now
    let documents_list := pyOrList documents [document]
    (fsInsert fs1 name ⟨some m, some (splitDocs documents_list)⟩, some name)

/-- `SessionManager.load_session` (lines 99-155) over the file-system
model: `none` for a missing directory or missing metadata file (the
raised error is caught and turned into `None`); a missing index
directory is not an error (`Chroma` opens it as an empty store). -/
def loadSessionFS (fs : SessionFS) (name : String) : Option LoadedSession :=
  match List.lookup name fs with
  | none => none
  | some dir =>
    match dir.metadataFile with
    | none => none
    | some m => some (loadSessionFromMetadata m)

/-- `SessionManager.append_to_session` (lines 229-296) over the
file-system model.  The metadata file is rewritten first; then the new
documents are split and, when any chunks result, added to the existing
index.  `failIndexAdd` injects an exception in the index-extension step
(lines 281-289); the `except` handler returns `False` leaving the
already-rewritten metadata in place. -/
def appendToSessionFS (splitDocs : List Document → List Document) (fs : SessionFS)
    (failIndexAdd : Bool) (persist_name : String) (documents : List Document)
    (new_documents : List Document) (summaries : List SummaryRecord)
    (combined_summary : String) (combined_document : Document)
    (chat_history : List (List String)) (language : String) :
    SessionFS × Bool :=
  match List.lookup persist_name fs with
  | none => (fs, false)
  | some dir =>
    match dir.metadataFile with
    | none => (fs, false)
    | some m =>
      let m2 := appendMetadataUpdate m documents summaries combined_summary
        combined_document chat_history language
      let fs1 := fsInsert fs persist_name { dir with metadataFile := some m2 }
      let newChunks := splitDocs new_documents
      if newChunks.isEmpty then (fs1, true)
      else if failIndexAdd then (fs1, false)
      else
        (fsInsert fs persist_name
          ⟨some m2, some (dir.chroma.getD [] ++ newChunks)⟩, true)

/-! ## Sample data for concrete runs -/

/-- A sample ingested document. -/
def sampleDocA : Document :=
  ⟨"content one", ⟨some "https://youtu.be/a", some "subtitles"⟩⟩

/-- A second sample document, to be appended. -/
def sampleDocB : Document :=
  ⟨"content two", ⟨some "https://youtu.be/b", some "subtitles"⟩⟩

/-- The summary record of `sampleDocA`. -/
def sampleSummaryA : SummaryRecord :=
  ⟨"https://youtu.be/a", "summary one"⟩

/-- A sample model configuration dictionary. -/
def sampleCfg : ModelConfig :=
  ⟨some "gpt-5-mini", some 1000, some 20⟩

/-- The metadata of a one-document session created from `sampleDocA`. -/
def sampleMetaA : SessionMetadata :=
  saveSessionMetadata sampleDocA "summary one" sampleCfg "sess" (some []) "en"
    (some [sampleDocA]) (some [sampleSummaryA]) "2024-01-01T00:00:00"

end YoutubeRag

namespace YoutubeRag

/-- Serializing a document to its record and reading it back is the
identity. -/
theorem map_recordToDocument_docToRecord (l : List Document) :
    l.map (recordToDocument ∘ docToRecord) = l := by
  induction l with
  | nil => rfl
  | cons d ds ih => simp [Function.comp, recordToDocument, docToRecord, ih]

/-! ## Claim C1 -/

/-- C1: after an append (`add_video_to_session` building the argument
lists, `append_to_session` rewriting the metadata), the persisted
metadata's `video_urls`, `documents` and `summaries` all have length one
greater than the session's previous document count, and `video_urls`
is index-aligned with the documents' recorded `source` URLs (the
`.get("source", "")` default applying when a document has no source
key).  The hypotheses say the session being extended is consistent: its
metadata records exactly its `docs` and `summs`, which have equal
length. -/
theorem c1_append_alignment
    (m : SessionMetadata) (docs : List Document) (summs : List SummaryRecord)
    (newDoc : Document) (url newSummary combined_summary : String)
    (combined_document : Document) (chat : List (List String)) (language : String)
    (hdocs : m.documents = docs.map docToRecord) (hsums : m.summaries = summs)
    (hlen : docs.length = summs.length) :
    let args := addVideoArgLists docs summs newDoc url newSummary
    let m2 := appendMetadataUpdate m args.1 args.2 combined_summary
      combined_document chat language
    m2.video_urls.length = m.documents.length + 1 ∧
    m2.documents.length = m.documents.length + 1 ∧
    m2.summaries.length = m.documents.length + 1 ∧
    m2.video_urls = m2.documents.map (fun r => r.metadata.source.getD "") := by
  subst hsums
  simp [addVideoArgLists, appendMetadataUpdate, docToRecord, List.map_map,
    Function.comp, hdocs, hlen]

/-- Witness for C1 at a concrete one-document session. -/
theorem c1_append_alignment_witness :
    (sampleMetaA.documents = [sampleDocA].map docToRecord ∧
     sampleMetaA.summaries = [sampleSummaryA] ∧
     ([sampleDocA] : List Document).length = [sampleSummaryA].length) ∧
    (let args := addVideoArgLists [sampleDocA] [sampleSummaryA] sampleDocB
       "https://youtu.be/b" "summary two"
     let m2 := appendMetadataUpdate sampleMetaA args.1 args.2 "combined"
       sampleDocB [] "en"
     m2.video_urls.length = sampleMetaA.documents.length + 1 ∧
     m2.documents.length = sampleMetaA.documents.length + 1 ∧
     m2.summaries.length = sampleMetaA.documents.length + 1 ∧
     m2.video_urls = m2.documents.map (fun r => r.metadata.source.getD "")) :=
  ⟨⟨by decide, by decide, by decide⟩,
    c1_append_alignment sampleMetaA [sampleDocA] [sampleSummaryA] sampleDocB
      "https://youtu.be/b" "summary two" "combined" sampleDocB [] "en"
      (by decide) (by decide) (by decide)⟩

/-! ## Claim C3 -/

/-- C3: `save_session` followed by `load_session` on the same session
id returns documents and summaries equal, in content and order, to what
was supplied, for any nonempty supplied document list (so in particular
for one and for two or more documents).  With an empty list the code
would fall back to `[document]`, hence the hypothesis. -/
theorem c3_create_load_roundtrip
    (splitDocs : List Document → List Document) (fs : SessionFS)
    (document : Document) (summary : String) (cfg : ModelConfig) (name : String)
    (chat : Option (List (List String))) (language : String)
    (docs : List Document) (summs : List SummaryRecord) (now uuid : String)
    (hne : docs ≠ []) :
    let r := saveSessionFS splitDocs fs none document summary cfg (some name)
      chat language (some docs) (some summs) now uuid
    r.2 = some name ∧
    ∃ loaded, loadSessionFS r.1 name = some loaded ∧
      loaded.documents = docs ∧ loaded.summaries = summs := by
  obtain ⟨d, ds, rfl⟩ := List.exists_cons_of_ne_nil hne
  intro r
  have hload : loadSessionFS r.1 name =
      some (loadSessionFromMetadata (saveSessionMetadata document summary cfg
        name chat language (some (d :: ds)) (some summs) now)) := by
    simp [r, saveSessionFS, loadSessionFS, fsInsert, fsErase, List.lookup]
  refine ⟨rfl, _, hload, ?_, ?_⟩
  · simp [loadSessionFromMetadata, saveSessionMetadata, pyOrList, docToRecord,
      recordToDocument, List.map_map, map_recordToDocument_docToRecord]
  · simp [loadSessionFromMetadata, saveSessionMetadata, pyOrList]

/-- Witness for C3 with a concrete two-document session. -/
theorem c3_create_load_roundtrip_witness :
    (([sampleDocA, sampleDocB] : List Document) ≠ []) ∧
    (let r := saveSessionFS (fun ds => ds) [] none sampleDocA "summary one"
       sampleCfg (some "sess") none "en" (some [sampleDocA, sampleDocB])
       (some [sampleSummaryA]) "2024-01-01T00:00:00" "uuid-0"
     r.2 = some "sess" ∧
     ∃ loaded, loadSessionFS r.1 "sess" = some loaded ∧
       loaded.documents = [sampleDocA, sampleDocB] ∧
       loaded.summaries = [sampleSummaryA]) :=
  ⟨by decide,
    c3_create_load_roundtrip (fun ds => ds) [] sampleDocA "summary one"
      sampleCfg "sess" none "en" [sampleDocA, sampleDocB] [sampleSummaryA]
      "2024-01-01T00:00:00" "uuid-0" (by decide)⟩

/-! ## Claim C9 -/

/-- C9 counterexample: with an exception injected in the vector-index
build, `save_session` returns `None` but the partially written session
directory (holding the already-written `metadata.json`) is still
present: it is not cleaned up before the failure is signaled, contrary
to the claim. -/
theorem c9_counterexample :
    (saveSessionFS (fun ds => ds) [] (some SaveFailure.indexBuild) sampleDocA
       "summary one" sampleCfg (some "sess") none "en" none none
       "2024-01-01T00:00:00" "uuid-0").2 = none ∧
    List.lookup "sess"
      (saveSessionFS (fun ds => ds) [] (some SaveFailure.indexBuild) sampleDocA
        "summary one" sampleCfg (some "sess") none "en" none none
        "2024-01-01T00:00:00" "uuid-0").1 ≠ none := by
  decide

/-- C9 amended: if the metadata write or the vector-index build throws
during session creation, `save_session` reports failure (returns
`None`), but the partially written session directory remains on disk
with whatever was written before the failure (nothing after a failed
metadata write; `metadata.json` after a failed index build).  No
cleanup happens before the failure is signaled. -/
theorem c9_save_failure_leaves_directory
    (splitDocs : List Document → List Document) (fs : SessionFS) (f : SaveFailure)
    (document : Document) (summary : String) (cfg : ModelConfig)
    (persist_name : Option String) (chat : Option (List (List String)))
    (language : String) (docs : Option (List Document))
    (summs : Option (List SummaryRecord)) (now uuid : String) :
    let name := persist_name.getD uuid
    let r := saveSessionFS splitDocs fs (some f) document summary cfg persist_name
      chat language docs summs now uuid
    r.2 = none ∧
    List.lookup name r.1 =
      some (match f with
        | SaveFailure.metadataWrite => ⟨none, none⟩
        | SaveFailure.indexBuild =>
          ⟨some (saveSessionMetadata document summary cfg (persist_name.getD uuid)
            chat language docs summs now), none⟩) := by
  cases f <;> simp [saveSessionFS, fsInsert, fsErase, List.lookup]

/-! ## Claim C10 -/

/-- C10: when a directory for `persist_name` already exists,
`save_session` removes it and writes the new session in its place: the
resulting directory contents are exactly the freshly built metadata and
index, independent of the previous directory, so the earlier session's
documents, summaries and chat history do not survive. -/
theorem c10_save_replaces_existing
    (splitDocs : List Document → List Document) (fs : SessionFS) (name : String)
    (oldDir : SessionDir) (document : Document) (summary : String)
    (cfg : ModelConfig) (chat : Option (List (List String))) (language : String)
    (docs : Option (List Document)) (summs : Option (List SummaryRecord))
    (now uuid : String)
    (_hold : List.lookup name fs = some oldDir) :
    let r := saveSessionFS splitDocs fs none document summary cfg (some name)
      chat language docs summs now uuid
    r.2 = some name ∧
    List.lookup name r.1 =
      some ⟨some (saveSessionMetadata document summary cfg name chat language
              docs summs now),
            some (splitDocs (pyOrList docs [document]))⟩ := by
  exact ⟨rfl, by simp [saveSessionFS, fsInsert, fsErase, List.lookup]⟩

/-- Witness for C10: a session directory with old content exists under
the name; after the save it holds only the new session's data. -/
theorem c10_save_replaces_existing_witness :
    List.lookup "sess" [("sess", (⟨some sampleMetaA, some [sampleDocA]⟩ : SessionDir))] =
      some ⟨some sampleMetaA, some [sampleDocA]⟩ ∧
    (let r := saveSessionFS (fun ds => ds)
       [("sess", (⟨some sampleMetaA, some [sampleDocA]⟩ : SessionDir))] none
       sampleDocB "summary two" sampleCfg (some "sess") none "en" none none
       "2024-02-02T00:00:00" "uuid-1"
     r.2 = some "sess" ∧
     List.lookup "sess" r.1 =
       some ⟨some (saveSessionMetadata sampleDocB "summary two" sampleCfg "sess"
               none "en" none none "2024-02-02T00:00:00"),
             some [sampleDocB]⟩) :=
  ⟨by decide,
    c10_save_replaces_existing (fun ds => ds)
      [("sess", ⟨some sampleMetaA, some [sampleDocA]⟩)] "sess"
      ⟨some sampleMetaA, some [sampleDocA]⟩ sampleDocB "summary two" sampleCfg
      none "en" none none "2024-02-02T00:00:00" "uuid-1" (by decide)⟩

/-! ## Claim C2 -/

/-- C2 counterexample: in `append_to_session` the metadata file is
written before the index extension, and the extension is a plain
`add_documents` append.  Concretely: (i) a run whose index extension
throws returns `False` with the metadata already rewritten to list two
documents while the index still holds no chunks — an interruption
between the steps leaves metadata listing a document that has no chunks
in the index; and (ii) re-running a successful append duplicates the
new chunks, so the extension is not idempotent/retryable either. -/
theorem c2_counterexample :
    let fs0 : SessionFS := [("sess", ⟨some sampleMetaA, some []⟩)]
    let args := addVideoArgLists [sampleDocA] [sampleSummaryA] sampleDocB
      "https://youtu.be/b" "summary two"
    let m2 := appendMetadataUpdate sampleMetaA args.1 args.2 "combined"
      sampleDocB [] "en"
    let rFail := appendToSessionFS (fun ds => ds) fs0 true "sess" args.1
      [sampleDocB] args.2 "combined" sampleDocB [] "en"
    let rOk := appendToSessionFS (fun ds => ds) fs0 false "sess" args.1
      [sampleDocB] args.2 "combined" sampleDocB [] "en"
    let rOk2 := appendToSessionFS (fun ds => ds) rOk.1 false "sess" args.1
      [sampleDocB] args.2 "combined" sampleDocB [] "en"
    (rFail.2 = false ∧
     List.lookup "sess" rFail.1 = some ⟨some m2, some []⟩ ∧
     m2.documents.length = 2) ∧
    (List.lookup "sess" rOk.1 = some ⟨some m2, some [sampleDocB]⟩ ∧
     List.lookup "sess" rOk2.1 = some ⟨some m2, some [sampleDocB, sampleDocB]⟩) := by
  decide

/-- C2 amended: `append_to_session` writes the metadata file first and
extends the index afterwards with a plain chunk append (not
idempotent).  Hence when the index extension throws, the call returns
`False` but the metadata has already been rewritten (listing the
appended documents) while the index chunks are unchanged. -/
theorem c2_metadata_written_before_index
    (splitDocs : List Document → List Document) (fs : SessionFS)
    (dir : SessionDir) (m : SessionMetadata) (persist_name : String)
    (documents new_documents : List Document) (summaries : List SummaryRecord)
    (combined_summary : String) (combined_document : Document)
    (chat : List (List String)) (language : String)
    (hdir : List.lookup persist_name fs = some dir)
    (hmeta : dir.metadataFile = some m)
    (hchunks : splitDocs new_documents ≠ []) :
    let m2 := appendMetadataUpdate m documents summaries combined_summary
      combined_document chat language
    let r := appendToSessionFS splitDocs fs true persist_name documents
      new_documents summaries combined_summary combined_document chat language
    r.2 = false ∧
    List.lookup persist_name r.1 = some { dir with metadataFile := some m2 } := by
  simp only [appendToSessionFS, hdir, hmeta]
  have h1 : (splitDocs new_documents).isEmpty = false := by
    simpa [List.isEmpty_iff] using hchunks
  simp [h1, fsInsert, fsErase, List.lookup]

/-- Witness for C2's amended statement at a concrete session. -/
theorem c2_metadata_written_before_index_witness :
    (List.lookup "sess" [("sess", (⟨some sampleMetaA, some []⟩ : SessionDir))] =
       some ⟨some sampleMetaA, some []⟩ ∧
     (⟨some sampleMetaA, some []⟩ : SessionDir).metadataFile = some sampleMetaA ∧
     ([sampleDocB] : List Document) ≠ []) ∧
    (let m2 := appendMetadataUpdate sampleMetaA [sampleDocA, sampleDocB]
       [sampleSummaryA, ⟨"https://youtu.be/b", "summary two"⟩] "combined"
       sampleDocB [] "en"
     let r := appendToSessionFS (fun ds => ds)
       [("sess", ⟨some sampleMetaA, some []⟩)] true "sess"
       [sampleDocA, sampleDocB] [sampleDocB]
       [sampleSummaryA, ⟨"https://youtu.be/b", "summary two"⟩] "combined"
       sampleDocB [] "en"
     r.2 = false ∧
     List.lookup "sess" r.1 =
       some { (⟨some sampleMetaA, some []⟩ : SessionDir) with
         metadataFile := some m2 }) :=
  ⟨⟨by decide, by decide, by decide⟩,
    c2_metadata_written_before_index (fun ds => ds)
      [("sess", ⟨some sampleMetaA, some []⟩)] ⟨some sampleMetaA, some []⟩
      sampleMetaA "sess" [sampleDocA, sampleDocB] [sampleDocB]
      [sampleSummaryA, ⟨"https://youtu.be/b", "summary two"⟩] "combined"
      sampleDocB [] "en" (by decide) (by decide) (by decide)⟩

/-! ## Claim C4 -/

/-- C4: `generate_summary` is a total function into strings (it is
defined as such for every oracle, content and language, modelling that
the Python code catches every exception of the `try` body), and when
the full attempt fails it retries exactly once on the first 2000
characters of the cleaned text with the partial-summary framing,
returning the framed result on success and the fixed failure string if
that retry also fails. -/
theorem c4_summary_fallback
    (invoke : String → Option String) (model content language : String)
    (hfail : generateSummaryTry invoke model content language = none) :
    generateSummary invoke model content language =
      match invoke (fallbackSummaryPrompt (languageLabel language)
          (languageReminder language) (pySlice (cleanSubtitleText content) 2000)) with
      | some r =>
        "⚠️ Partial Summary (video too long) / 部分摘要（视频过长）:\n\n" ++ r ++
          summaryTruncNote (cleanSubtitleText content)
      | none =>
        "❌ Unable to generate summary due to text length limitations / 由于文本长度限制无法生成摘要" := by
  unfold generateSummary
  rw [hfail]

/-- Witness for C4: with an oracle that always fails, the full attempt
fails and the result is the fixed failure string. -/
theorem c4_summary_fallback_witness :
    generateSummaryTry (fun _ => none) "gpt-5-mini" "hi" "en" = none ∧
    generateSummary (fun _ => none) "gpt-5-mini" "hi" "en" =
      "❌ Unable to generate summary due to text length limitations / 由于文本长度限制无法生成摘要" :=
  ⟨by decide, by
    have h := c4_summary_fallback (fun _ => none) "gpt-5-mini" "hi" "en" (by decide)
    rw [h]⟩

/-! ## Claim C5 -/

/-- C5: for a nonempty cleaned text, `generate_summary`'s `try` body
takes the direct single-call path exactly when `len(text) // 3` is at
most the model's token ceiling — 100000 for `gpt-5-mini`,
`gpt-4o-mini`, `gpt-4o` and `gpt-4-turbo`, 6000 for `gpt-4`, 12000 for
`gpt-3.5-turbo`, and 6000 for any other model name — and the
hierarchical chunked path otherwise.  Here `text` is the cleaned text
after the 500 000-byte truncation guard, as in the code. -/
theorem c5_direct_vs_chunked
    (invoke : String → Option String) (model content language : String)
    (hne : cleanSubtitleText content ≠ "") :
    generateSummaryTry invoke model content language =
      (let cleaned := cleanSubtitleText content
       let text := summaryInputText cleaned
       let ceiling : Nat :=
         if model = "gpt-5-mini" ∨ model = "gpt-4o-mini" ∨ model = "gpt-4o" ∨
             model = "gpt-4-turbo" then 100000
         else if model = "gpt-4" then 6000
         else if model = "gpt-3.5-turbo" then 12000
         else 6000
       if text.data.length / 3 ≤ ceiling then
         (invoke (directSummaryPrompt (languageLabel language)
           (languageReminder language) text)).map (fun r => r ++ summaryTruncNote cleaned)
       else
         (chunkedSummarize invoke text ceiling (languageLabel language)
           (languageReminder language)).map (fun r => r ++ summaryTruncNote cleaned)) := by
  have hceil : modelTokenLimit model =
      (if model = "gpt-5-mini" ∨ model = "gpt-4o-mini" ∨ model = "gpt-4o" ∨
          model = "gpt-4-turbo" then (100000 : Nat)
       else if model = "gpt-4" then 6000
       else if model = "gpt-3.5-turbo" then 12000
       else 6000) := by
    by_cases h1 : model = "gpt-5-mini"
    · simp [modelTokenLimit, modelLimitsTable, List.lookup, h1]
    · by_cases h2 : model = "gpt-4o-mini"
      · simp [modelTokenLimit, modelLimitsTable, List.lookup, h2]
      · by_cases h3 : model = "gpt-4o"
        · simp [modelTokenLimit, modelLimitsTable, List.lookup, h3]
        · by_cases h4 : model = "gpt-4-turbo"
          · simp [modelTokenLimit, modelLimitsTable, List.lookup, h4]
          · by_cases h5 : model = "gpt-4"
            · simp [modelTokenLimit, modelLimitsTable, List.lookup, h5]
            · by_cases h6 : model = "gpt-3.5-turbo"
              · simp [modelTokenLimit, modelLimitsTable, List.lookup, h6]
              · simp [modelTokenLimit, modelLimitsTable, List.lookup,
                  h1, h2, h3, h4, h5, h6, beq_eq_false_iff_ne.mpr h1,
                  beq_eq_false_iff_ne.mpr h2, beq_eq_false_iff_ne.mpr h3,
                  beq_eq_false_iff_ne.mpr h4, beq_eq_false_iff_ne.mpr h5,
                  beq_eq_false_iff_ne.mpr h6]
  simp only [generateSummaryTry, estimateTokens, if_neg hne, hceil]

/-- Witness for C5: a short transcript with the `gpt-4` ceiling takes
the direct path. -/
theorem c5_direct_vs_chunked_witness :
    cleanSubtitleText "hello transcript" ≠ "" ∧
    generateSummaryTry (fun _ => some "OK") "gpt-4" "hello transcript" "en" =
      some "OK" := by
  refine ⟨by decide, ?_⟩
  have h := c5_direct_vs_chunked (fun _ => some "OK") "gpt-4" "hello transcript"
    "en" (by decide)
  rw [h]
  decide

/-! ## Claim C8 -/

/-- A list not starting with `<` starts no tag match. -/
theorem startsTag_of_head_ne (c : Char) (l : List Char) (h : c ≠ '<') :
    startsTag (c :: l) = false := by
  cases l with
  | nil => rfl
  | cons d rest => simp [startsTag, beq_eq_false_iff_ne.mpr h]

/-- A bare `<>` starts no tag match (the run must be nonempty). -/
theorem startsTag_lt_gt (l : List Char) : startsTag ('<' :: '>' :: l) = false := by
  simp [startsTag]

/-- A list containing no `>` contains no tag. -/
theorem hasTag_of_no_gt (l : List Char) (h : ∀ x ∈ l, x ≠ '>') :
    hasTag l = false := by
  induction l with
  | nil => rfl
  | cons c rest ih =>
    have hc : startsTag (c :: rest) = false := by
      cases rest with
      | nil => rfl
      | cons d r2 =>
        have hdrop : List.dropWhile (fun e => e != '>') (d :: r2) = [] := by
          rw [List.dropWhile_eq_nil_iff]
          intro x hx
          simpa using h x (by simp [hx])
        simp [startsTag, hdrop]
    simp [hasTag, hc, ih fun x hx => h x (List.mem_cons_of_mem _ hx)]

/-- A tag match starting at the head survives appending on the right. -/
theorem startsTag_append (s t : List Char) (h : startsTag s = true) :
    startsTag (s ++ t) = true := by
  match s with
  | [] => simp [startsTag] at h
  | [c] => simp [startsTag] at h
  | c :: d :: rest =>
    simp only [startsTag, Bool.and_eq_true, Bool.not_eq_true'] at h
    obtain ⟨⟨hc, hd⟩, hdrop⟩ := h
    simp only [List.cons_append, startsTag, Bool.and_eq_true, Bool.not_eq_true']
    refine ⟨⟨hc, hd⟩, ?_⟩
    have hl : List.dropWhile (fun e => e != '>') (d :: rest) ≠ [] := by
      intro hnil
      rw [hnil] at hdrop
      cases hdrop
    have hrw : (d : Char) :: (rest ++ t) = (d :: rest) ++ t := rfl
    rw [hrw, List.dropWhile_append, hdrop]
    simp [List.append_eq_nil, hl]

/-- A tag inside `s` is a tag inside `s ++ t`. -/
theorem hasTag_append_left (s t : List Char) (h : hasTag s = true) :
    hasTag (s ++ t) = true := by
  induction s with
  | nil => simp [hasTag] at h
  | cons c rest ih =>
    simp only [hasTag, Bool.or_eq_true] at h
    rcases h with h | h
    · have hs := startsTag_append (c :: rest) t h
      simp only [List.cons_append] at hs
      simp [hasTag, hs]
    · simp [hasTag, ih h]

/-- A tag inside `t` is a tag inside `u ++ t`. -/
theorem hasTag_append_right (u t : List Char) (h : hasTag t = true) :
    hasTag (u ++ t) = true := by
  induction u with
  | nil => simpa using h
  | cons c rest ih => simp [hasTag, List.cons_append, ih]

/-- If the whole list has no tag, neither has a contiguous middle
part. -/
theorem hasTag_middle (u m v : List Char) (h : hasTag (u ++ m ++ v) = false) :
    hasTag m = false := by
  by_contra hh
  have hm : hasTag m = true := by simpa using hh
  have h2 : hasTag (u ++ (m ++ v)) = true :=
    hasTag_append_right _ _ (hasTag_append_left _ _ hm)
  rw [← List.append_assoc] at h2
  rw [h2] at h
  cases h

/-- Stripping decomposes a list into stripped whitespace around the
stripped core. -/
theorem exists_pyStrip_decomp (l : List Char) :
    ∃ u v, l = u ++ pyStrip l ++ v := by
  refine ⟨l.takeWhile isPySpace,
    ((l.dropWhile isPySpace).reverse.takeWhile isPySpace).reverse, ?_⟩
  unfold pyStrip
  conv_lhs => rw [← List.takeWhile_append_dropWhile isPySpace l]
  rw [List.append_assoc]
  congr 1
  conv_lhs => rw [← List.reverse_reverse (l.dropWhile isPySpace),
    ← List.takeWhile_append_dropWhile isPySpace (l.dropWhile isPySpace).reverse]
  rw [List.reverse_append]

/-- Membership in a stripped list implies membership in the
original. -/
theorem mem_pyStrip (x : Char) (l : List Char) (h : x ∈ pyStrip l) : x ∈ l := by
  unfold pyStrip at h
  rw [List.mem_reverse] at h
  have h2 := (List.dropWhile_sublist _).mem h
  rw [List.mem_reverse] at h2
  exact (List.dropWhile_sublist _).mem h2

/-- The output of the tag-removal scan never contains a tag match. -/
theorem hasTag_removeTagsAux (l : List Char) :
    ∀ ob : Option (List Char), (∀ buf, ob = some buf → '>' ∉ buf) →
      hasTag (removeTagsAux l ob) = false := by
  induction l with
  | nil =>
    intro ob hob
    cases ob with
    | none => rfl
    | some buf =>
      apply hasTag_of_no_gt
      intro x hx
      simp only [removeTagsAux, List.mem_cons, List.mem_reverse] at hx
      rcases hx with rfl | hx
      · decide
      · intro hxgt
        exact hob buf rfl (hxgt ▸ hx)
  | cons c rest ih =>
    intro ob hob
    cases ob with
    | none =>
      by_cases hc : c = '<'
      · rw [show removeTagsAux (c :: rest) none = removeTagsAux rest (some []) by
          simp [removeTagsAux, hc]]
        exact ih (some []) (by intro buf h; injection h with h2; subst h2; simp)
      · rw [show removeTagsAux (c :: rest) none = c :: removeTagsAux rest none by
          simp [removeTagsAux, hc]]
        have h1 := startsTag_of_head_ne c (removeTagsAux rest none) hc
        simp [hasTag, h1, ih none (by rintro buf h; cases h)]
    | some buf =>
      by_cases hc : c = '>'
      · cases hbufE : buf.isEmpty with
        | false =>
          rw [show removeTagsAux (c :: rest) (some buf) = removeTagsAux rest none by
            simp [removeTagsAux, hc, hbufE]]
          exact ih none (by rintro buf h; cases h)
        | true =>
          rw [show removeTagsAux (c :: rest) (some buf) =
              '<' :: '>' :: removeTagsAux rest none by
            simp [removeTagsAux, hc, hbufE]]
          have h1 := startsTag_lt_gt (removeTagsAux rest none)
          have h2 := startsTag_of_head_ne '>' (removeTagsAux rest none) (by decide)
          simp [hasTag, h1, h2, ih none (by rintro buf h; cases h)]
      · rw [show removeTagsAux (c :: rest) (some buf) =
            removeTagsAux rest (some (c :: buf)) by simp [removeTagsAux, hc]]
        refine ih (some (c :: buf)) ?_
        rintro buf' h
        injection h with h'
        subst h'
        simp only [List.mem_cons, not_or]
        exact ⟨fun hgt => hc hgt.symm, hob buf rfl⟩

/-- Characters of the tag-removal output come from the input, the
pending buffer, or the literal `<`/`>` re-emissions. -/
theorem mem_removeTagsAux (x : Char) :
    ∀ (l : List Char) (ob : Option (List Char)), x ∈ removeTagsAux l ob →
      x ∈ l ∨ x = '<' ∨ x = '>' ∨ ∃ buf, ob = some buf ∧ x ∈ buf := by
  intro l
  induction l with
  | nil =>
    intro ob hx
    cases ob with
    | none => cases hx
    | some buf =>
      simp only [removeTagsAux, List.mem_cons, List.mem_reverse] at hx
      rcases hx with rfl | hx
      · exact Or.inr (Or.inl rfl)
      · exact Or.inr (Or.inr (Or.inr ⟨buf, rfl, hx⟩))
  | cons c rest ih =>
    intro ob hx
    cases ob with
    | none =>
      by_cases hc : c = '<'
      · rw [show removeTagsAux (c :: rest) none = removeTagsAux rest (some []) by
          simp [removeTagsAux, hc]] at hx
        rcases ih (some []) hx with h | h | h | ⟨buf, hbuf, hmem⟩
        · exact Or.inl (List.mem_cons_of_mem _ h)
        · exact Or.inr (Or.inl h)
        · exact Or.inr (Or.inr (Or.inl h))
        · injection hbuf with h'; subst h'; cases hmem
      · rw [show removeTagsAux (c :: rest) none = c :: removeTagsAux rest none by
          simp [removeTagsAux, hc]] at hx
        rcases List.mem_cons.mp hx with rfl | hx
        · exact Or.inl (List.mem_cons_self _ _)
        · rcases ih none hx with h | h | h | ⟨buf, hbuf, _⟩
          · exact Or.inl (List.mem_cons_of_mem _ h)
          · exact Or.inr (Or.inl h)
          · exact Or.inr (Or.inr (Or.inl h))
          · cases hbuf
    | some buf =>
      by_cases hc : c = '>'
      · cases hbufE : buf.isEmpty with
        | false =>
          rw [show removeTagsAux (c :: rest) (some buf) = removeTagsAux rest none by
            simp [removeTagsAux, hc, hbufE]] at hx
          rcases ih none hx with h | h | h | ⟨buf', hbuf, _⟩
          · exact Or.inl (List.mem_cons_of_mem _ h)
          · exact Or.inr (Or.inl h)
          · exact Or.inr (Or.inr (Or.inl h))
          · cases hbuf
        | true =>
          rw [show removeTagsAux (c :: rest) (some buf) =
              '<' :: '>' :: removeTagsAux rest none by
            simp [removeTagsAux, hc, hbufE]] at hx
          rcases List.mem_cons.mp hx with rfl | hx
          · exact Or.inr (Or.inl rfl)
          · rcases List.mem_cons.mp hx with rfl | hx
            · exact Or.inr (Or.inr (Or.inl rfl))
            · rcases ih none hx with h | h | h | ⟨buf', hbuf, _⟩
              · exact Or.inl (List.mem_cons_of_mem _ h)
              · exact Or.inr (Or.inl h)
              · exact Or.inr (Or.inr (Or.inl h))
              · cases hbuf
      · rw [show removeTagsAux (c :: rest) (some buf) =
            removeTagsAux rest (some (c :: buf)) by simp [removeTagsAux, hc]] at hx
        rcases ih (some (c :: buf)) hx with h | h | h | ⟨buf', hbuf, hmem⟩
        · exact Or.inl (List.mem_cons_of_mem _ h)
        · exact Or.inr (Or.inl h)
        · exact Or.inr (Or.inr (Or.inl h))
        · injection hbuf with h'
          subst h'
          rcases List.mem_cons.mp hmem with rfl | hmem
          · exact Or.inl (List.mem_cons_self _ _)
          · exact Or.inr (Or.inr (Or.inr ⟨buf, rfl, hmem⟩))

/-- Splitting steps over an ordinary (non-break) character by moving it
into the accumulator. -/
theorem splitLinesAux_cons_of_ne (c : Char) (rest acc : List Char)
    (h1 : c ≠ '\r') (h2 : c ≠ '\n') :
    splitLinesAux (c :: rest) acc = splitLinesAux rest (c :: acc) := by
  simp [splitLinesAux, h1, h2]

/-- Splitting a lone carriage return not followed by a newline. -/
theorem splitLinesAux_cr (rest acc : List Char)
    (h : ∀ r2 : List Char, rest ≠ '\n' :: r2) :
    splitLinesAux ('\r' :: rest) acc = acc.reverse :: splitLinesAux rest [] := by
  cases rest with
  | nil => rfl
  | cons d r2 =>
    have hd : d ≠ '\n' := fun hd => h r2 (by rw [hd])
    simp [splitLinesAux, hd]

/-- Every character of every line produced by the splitter is a
non-break character, provided the accumulator holds only such
characters. -/
theorem splitLines_mem_no_break (l acc : List Char) :
    (∀ a ∈ acc, a ≠ '\n' ∧ a ≠ '\r') →
      ∀ x ∈ splitLinesAux l acc, ∀ ch ∈ x, ch ≠ '\n' ∧ ch ≠ '\r' := by
  induction l, acc using splitLinesAux.induct with
  | case1 acc hacc0 =>
    intro hacc x hx
    simp [splitLinesAux, hacc0] at hx
  | case2 acc hacc0 =>
    intro hacc x hx ch hch
    simp [splitLinesAux, hacc0] at hx
    subst hx
    exact hacc ch (List.mem_reverse.mp hch)
  | case3 rest acc ih =>
    intro hacc x hx ch hch
    rw [show splitLinesAux ('\r' :: '\n' :: rest) acc =
        acc.reverse :: splitLinesAux rest [] from rfl] at hx
    rcases List.mem_cons.mp hx with rfl | hx
    · exact hacc ch (List.mem_reverse.mp hch)
    · exact ih (by simp) x hx ch hch
  | case4 rest acc ih =>
    intro hacc x hx ch hch
    rw [show splitLinesAux ('\n' :: rest) acc =
        acc.reverse :: splitLinesAux rest [] from rfl] at hx
    rcases List.mem_cons.mp hx with rfl | hx
    · exact hacc ch (List.mem_reverse.mp hch)
    · exact ih (by simp) x hx ch hch
  | case5 rest acc hno ih =>
    intro hacc x hx ch hch
    rw [splitLinesAux_cr rest acc (fun r2 hr2 => hno r2 hr2)] at hx
    rcases List.mem_cons.mp hx with rfl | hx
    · exact hacc ch (List.mem_reverse.mp hch)
    · exact ih (by simp) x hx ch hch
  | case6 c rest acc hcr hn hr ih =>
    intro hacc x hx ch hch
    rw [splitLinesAux_cons_of_ne c rest acc hr hn] at hx
    refine ih ?_ x hx ch hch
    intro a ha
    rcases List.mem_cons.mp ha with rfl | ha
    · exact ⟨hn, hr⟩
    · exact hacc a ha

/-- On break-free input the splitter yields the single accumulated
line (or nothing when there is nothing accumulated). -/
theorem splitLinesAux_breakless (x : List Char) :
    ∀ acc : List Char, (∀ ch ∈ x, ch ≠ '\n' ∧ ch ≠ '\r') →
      splitLinesAux x acc =
        if acc.isEmpty && x.isEmpty then [] else [acc.reverse ++ x] := by
  induction x with
  | nil =>
    intro acc _
    by_cases hne : acc.isEmpty <;> simp [splitLinesAux, hne]
  | cons c x2 ih =>
    intro acc hx
    have hc := hx c (by simp)
    rw [splitLinesAux_cons_of_ne c x2 acc hc.2 hc.1,
      ih (c :: acc) (fun ch hch => hx ch (List.mem_cons_of_mem _ hch))]
    simp

/-- Splitting consumes a leading break-free line up to the first
`'\n'`. -/
theorem splitLinesAux_append_newline (x : List Char) (t : List Char) :
    ∀ acc : List Char, (∀ ch ∈ x, ch ≠ '\n' ∧ ch ≠ '\r') →
      splitLinesAux (x ++ '\n' :: t) acc =
        (acc.reverse ++ x) :: splitLinesAux t [] := by
  induction x with
  | nil =>
    intro acc _
    simp [splitLinesAux]
  | cons c x2 ih =>
    intro acc hx
    have hc := hx c (by simp)
    rw [List.cons_append, splitLinesAux_cons_of_ne c (x2 ++ '\n' :: t) acc hc.2 hc.1,
      ih (c :: acc) (fun ch hch => hx ch (List.mem_cons_of_mem _ hch))]
    simp

/-- Joining nonempty break-free lines with `'\n'` and re-splitting
recovers exactly the lines. -/
theorem pySplitLines_joinNL (xs : List (List Char)) :
    (∀ x ∈ xs, x ≠ [] ∧ ∀ ch ∈ x, ch ≠ '\n' ∧ ch ≠ '\r') →
      pySplitLines (joinNL xs) = xs := by
  induction xs with
  | nil => intro _; rfl
  | cons x xs2 ih =>
    intro hxs
    cases xs2 with
    | nil =>
      have hx := hxs x (by simp)
      unfold pySplitLines
      rw [show joinNL [x] = x from rfl, splitLinesAux_breakless x [] hx.2]
      simp [List.isEmpty_iff, hx.1]
    | cons y ys =>
      have hx := hxs x (by simp)
      unfold pySplitLines
      rw [show joinNL (x :: y :: ys) = x ++ '\n' :: joinNL (y :: ys) from rfl]
      rw [splitLinesAux_append_newline x (joinNL (y :: ys)) [] hx.2]
      have := ih fun z hz => hxs z (List.mem_cons_of_mem _ hz)
      unfold pySplitLines at this
      rw [this]
      simp

/-- The cases in which a line is kept by the cleaning loop: it is kept
exactly as its tag-stripped re-strip, and only when that is
nonempty. -/
theorem processLine_some (line out : List Char) (h : processLine line = some out) :
    out = pyStrip (removeTags (pyStrip line)) ∧ out ≠ [] := by
  unfold processLine at h
  simp only [] at h
  split_ifs at h with h1 h2 h3 h4 h5 h6
  injection h with h7
  refine ⟨h7.symm, fun hnil => h6 ?_⟩
  rw [h7, hnil]
  rfl

/-- C8 counterexample: the cue-index regex is `^\d{1,4}$`, so a line of
five or more digits — though it consists purely of digits — is *not*
removed: `"12345"` survives cleaning unchanged, refuting the claim that
every pure-digit line is removed. -/
theorem c8_counterexample :
    "12345".data.all Char.isDigit = true ∧
    cleanSubtitleText "12345" = "12345" := by
  decide

/-- C8 amended: the cleaner removes every blank line, every digit-only
line of at most four digits (the regex is `^\d{1,4}$`, so longer
digit-only lines are kept), every line containing the `-->` marker, and
every line starting with `WEBVTT` or `NOTE`; and every line of its
output is nonempty and contains no markup-tag match `<[^>]+>`. -/
theorem c8_clean_subtitle_filtering :
    (∀ line : List Char,
       (pyStrip line = [] ∨ "WEBVTT".data.isPrefixOf (pyStrip line) = true ∨
        "NOTE".data.isPrefixOf (pyStrip line) = true ∨
        containsSub "-->".data (pyStrip line) = true ∨
        isCueIndexLine (pyStrip line) = true) →
       processLine line = none) ∧
    (∀ text : String, ∀ out ∈ pySplitLines (cleanSubtitleText text).data,
       out ≠ [] ∧ hasTag out = false) := by
  constructor
  · intro line h
    unfold processLine
    simp only []
    split_ifs with h1 h2 h3 h4 h5 h6
    any_goals rfl
    rcases h with h | h | h | h | h
    · exact absurd (List.isEmpty_iff.mpr h) h1
    · exact absurd h h2
    · exact absurd h h3
    · exact absurd h h4
    · exact absurd h h5
  · intro text out hout
    by_cases htext : text = ""
    · rw [htext] at hout
      simp [cleanSubtitleText, pySplitLines, splitLinesAux] at hout
    · rw [cleanSubtitleText, if_neg htext] at hout
      set lines := (pySplitLines text.data).filterMap processLine with hlines
      have hprops : ∀ x ∈ lines, x ≠ [] ∧ ∀ ch ∈ x, ch ≠ '\n' ∧ ch ≠ '\r' := by
        intro x hx
        rw [hlines] at hx
        obtain ⟨line, hline, hsome⟩ := List.mem_filterMap.mp hx
        obtain ⟨hx_eq, hx_ne⟩ := processLine_some line x hsome
        refine ⟨hx_ne, ?_⟩
        intro ch hch
        have hch2 : ch ∈ removeTags (pyStrip line) := mem_pyStrip ch _ (hx_eq ▸ hch)
        have hch3 := mem_removeTagsAux ch (pyStrip line) none hch2
        rcases hch3 with hmem | rfl | rfl | ⟨buf, hbuf, _⟩
        · have hch4 : ch ∈ line := mem_pyStrip ch line hmem
          exact splitLines_mem_no_break text.data [] (by simp) line hline ch hch4
        · exact ⟨by decide, by decide⟩
        · exact ⟨by decide, by decide⟩
        · cases hbuf
      have hsplit : pySplitLines (joinNL lines) = lines := pySplitLines_joinNL lines hprops
      rw [show (⟨joinNL lines⟩ : String).data = joinNL lines from rfl, hsplit] at hout
      obtain ⟨hne, hbreaks⟩ := hprops out hout
      refine ⟨hne, ?_⟩
      obtain ⟨line, hline, hsome⟩ := List.mem_filterMap.mp (hlines ▸ hout)
      obtain ⟨hx_eq, _⟩ := processLine_some line out hsome
      have hnotag : hasTag (removeTags (pyStrip line)) = false :=
        hasTag_removeTagsAux _ none (by rintro buf h; cases h)
      obtain ⟨u, v, huv⟩ := exists_pyStrip_decomp (removeTags (pyStrip line))
      rw [huv] at hnotag
      rw [hx_eq]
      exact hasTag_middle u _ v hnotag

/-- Witness for C8's amended statement: a four-digit cue-index line is
dropped, and a cleaned output line carries no tag. -/
theorem c8_clean_subtitle_filtering_witness :
    (isCueIndexLine (pyStrip "1234".data) = true ∧
     processLine "1234".data = none) ∧
    ("hi there".data ∈ pySplitLines (cleanSubtitleText "hi <i>there</i>").data ∧
     "hi there".data ≠ [] ∧ hasTag "hi there".data = false) :=
  ⟨⟨by decide,
    c8_clean_subtitle_filtering.1 "1234".data
      (Or.inr (Or.inr (Or.inr (Or.inr (by decide)))))⟩,
   ⟨by decide,
    c8_clean_subtitle_filtering.2 "hi <i>there</i>" "hi there".data (by decide)⟩⟩

/-! ## Claim C6 -/

/-- Concatenating the split lines recovers the input minus its line
breaks. -/
theorem splitLinesAux_flatten (l acc : List Char) :
    (splitLinesAux l acc).flatten =
      acc.reverse ++ l.filter (fun c => c != '\n' && c != '\r') := by
  induction l, acc using splitLinesAux.induct with
  | case1 acc h => simp [splitLinesAux, h, List.isEmpty_iff.mp h]
  | case2 acc h => simp [splitLinesAux, h]
  | case3 rest acc ih =>
    rw [show splitLinesAux ('\r' :: '\n' :: rest) acc =
        acc.reverse :: splitLinesAux rest [] from rfl]
    simp [ih]
  | case4 rest acc ih =>
    rw [show splitLinesAux ('\n' :: rest) acc =
        acc.reverse :: splitLinesAux rest [] from rfl]
    simp [ih]
  | case5 rest acc h ih =>
    rw [splitLinesAux_cr rest acc (fun r2 hr2 => h r2 hr2)]
    simp [ih]
  | case6 c rest acc h1 hn hr ih =>
    rw [splitLinesAux_cons_of_ne c rest acc hr hn, ih]
    have hc : (c != '\n' && c != '\r') = true := by
      simp [bne]
      exact ⟨hn, hr⟩
    simp [List.filter_cons, hc]

/-- The hard line splitter loses no characters. -/
theorem pyChunksOf_flatten (m : Nat) (hm : m ≠ 0) (l : List Char) :
    (pyChunksOf m l).flatten = l := by
  induction l using pyChunksOf.induct m with
  | case1 l h =>
    rw [pyChunksOf, dif_pos h]
    simp only [Bool.or_eq_true, List.isEmpty_iff, decide_eq_true_eq] at h
    rcases h with h | h
    · simp [h]
    · exact absurd h hm
  | case2 l h ih =>
    rw [pyChunksOf, dif_neg h]
    simp [ih]

/-- Joining with blank lines adds only line breaks. -/
theorem filter_joinNL (xs : List (List Char)) :
    (joinNL xs).filter (fun c => c != '\n' && c != '\r') =
      xs.flatten.filter (fun c => c != '\n' && c != '\r') := by
  induction xs with
  | nil => rfl
  | cons x xs2 ih =>
    cases xs2 with
    | nil => simp [joinNL]
    | cons y ys =>
      rw [show joinNL (x :: y :: ys) = x ++ '\n' :: joinNL (y :: ys) from rfl]
      simp [List.filter_append, ih]

/-- Filtering breaks out of break-free lines is the identity. -/
theorem filter_flatten_breakless (xs : List (List Char))
    (hbr : ∀ x ∈ xs, ∀ ch ∈ x, ch ≠ '\n' ∧ ch ≠ '\r') :
    xs.flatten.filter (fun c => c != '\n' && c != '\r') = xs.flatten := by
  rw [List.filter_eq_self]
  intro ch hch
  obtain ⟨x, hx, hchx⟩ := List.mem_flatten.mp hch
  have h2 := hbr x hx ch hchx
  simp [bne]
  exact ⟨h2.1, h2.2⟩

/-- Joining break-free lines and filtering breaks yields their
concatenation. -/
theorem filter_joinNL_breakless (cur : List (List Char))
    (hbr : ∀ x ∈ cur, ∀ ch ∈ x, ch ≠ '\n' ∧ ch ≠ '\r') :
    (joinNL cur).filter (fun c => c != '\n' && c != '\r') = cur.flatten := by
  rw [filter_joinNL, filter_flatten_breakless cur hbr]

/-- The greedy accumulation loop loses no (non-break) characters. -/
theorem chunkLinesLoop_flatten (m : Nat) (hm : m ≠ 0) :
    ∀ (ls cur : List (List Char)) (curLen : Nat),
      (∀ x ∈ cur ++ ls, ∀ ch ∈ x, ch ≠ '\n' ∧ ch ≠ '\r') →
      ((chunkLinesLoop m ls cur curLen).flatten).filter
          (fun c => c != '\n' && c != '\r') =
        cur.flatten ++ ls.flatten := by
  intro ls
  induction ls with
  | nil =>
    intro cur curLen hbr
    rw [chunkLinesLoop]
    by_cases hcur : cur.isEmpty
    · rw [if_pos hcur]
      simp [List.isEmpty_iff.mp hcur]
    · rw [if_neg hcur]
      simp only [List.flatten_cons, List.flatten_nil, List.append_nil]
      rw [filter_joinNL_breakless cur (fun x hx => hbr x (by simpa using hx))]
  | cons l ls2 ih =>
    intro cur curLen hbr
    have hbrcur : ∀ x ∈ cur, ∀ ch ∈ x, ch ≠ '\n' ∧ ch ≠ '\r' :=
      fun x hx => hbr x (List.mem_append_left _ hx)
    have hbrl : ∀ ch ∈ l, ch ≠ '\n' ∧ ch ≠ '\r' :=
      fun ch hch => hbr l (by simp) ch hch
    have hflush : (if cur.isEmpty then ([] : List (List Char))
        else [joinNL cur]).flatten.filter (fun c => c != '\n' && c != '\r') =
        cur.flatten := by
      by_cases hcur : cur.isEmpty
      · rw [if_pos hcur]
        simp [List.isEmpty_iff.mp hcur]
      · rw [if_neg hcur]
        simp only [List.flatten_cons, List.flatten_nil, List.append_nil]
        exact filter_joinNL_breakless cur hbrcur
    rw [chunkLinesLoop]
    by_cases h1 : curLen + (l.length + 1) > m
    · rw [if_pos h1]
      by_cases h2 : l.length + 1 ≥ m
      · rw [if_pos h2, List.flatten_append, List.flatten_append,
          List.filter_append, List.filter_append, hflush,
          pyChunksOf_flatten m hm l,
          List.filter_eq_self.mpr (fun ch hch => by
            have h3 := hbrl ch hch
            simp [bne]
            exact ⟨h3.1, h3.2⟩),
          ih [] 0 (fun x hx => hbr x (by
            simp at hx
            simp [hx]))]
        simp
      · rw [if_neg h2, List.flatten_append, List.filter_append, hflush,
          ih [l] (l.length + 1) (fun x hx => hbr x (by
            simp at hx
            simp [hx]))]
        simp
    · rw [if_neg h1,
        ih (cur ++ [l]) (curLen + (l.length + 1)) (fun x hx => hbr x (by
          simp at hx
          rcases hx with hx | hx | hx <;> simp [hx]))]
      simp

/-- C6: the hierarchical chunk splitter never drops characters:
concatenating the produced chunks and ignoring the chunk boundaries
(the inserted `'\n'` joins and the chunk breaks themselves) reproduces
the input's line contents — formally, filtering line breaks out of the
concatenation of all chunks yields the same character sequence as
filtering line breaks out of the input. -/
theorem c6_chunking_preserves_characters (text : List Char) (maxTokens : Nat) :
    ((chunkTextForSummary text maxTokens).flatten).filter
        (fun c => c != '\n' && c != '\r') =
      text.filter (fun c => c != '\n' && c != '\r') := by
  unfold chunkTextForSummary
  split_ifs with h
  · simp
  · have hm : max 1000 (max 1000 (maxTokens * 3 / 4)) ≠ 0 := by
      have h2 := Nat.le_max_left 1000 (max 1000 (maxTokens * 3 / 4))
      omega
    rw [chunkLinesLoop_flatten _ hm (pySplitLines text) [] 0 (fun x hx =>
      splitLines_mem_no_break text [] (by simp) x (by simpa using hx))]
    unfold pySplitLines
    rw [splitLinesAux_flatten]
    simp

/-! ## Claim C7 -/

/-- Unfolding of the decoder at the empty byte string. -/
theorem utf8Dec_nil : utf8Dec [] = [] := by
  rw [utf8Dec]

/-- Decoding the UTF-8 bytes of one character followed by anything
yields that character followed by the decode of the rest. -/
theorem utf8Dec_encodeChar (c : Char) (bs : List Nat) :
    utf8Dec (utf8EncodeChar c ++ bs) = c :: utf8Dec bs := by
  have hv : c.toNat < 0xd800 ∨ (0xdfff < c.toNat ∧ c.toNat < 0x110000) := c.valid
  unfold utf8EncodeChar
  by_cases h1 : c.toNat < 0x80
  · rw [if_pos h1, show ([c.toNat] ++ bs) = c.toNat :: bs from rfl,
      utf8Dec.eq_def]
    dsimp only
    rw [if_pos h1, Char.ofNat_toNat]
  · by_cases h2 : c.toNat < 0x800
    · rw [if_neg h1, if_pos h2]
      have hb1 : ¬ (0xC0 + c.toNat / 64 < 0x80) := by omega
      have hb2 : ¬ (0xC0 + c.toNat / 64 < 0xC2) := by omega
      have hb3 : 0xC0 + c.toNat / 64 < 0xE0 := by omega
      have hcont : isContByte (0x80 + c.toNat % 64) = true := by
        simp [isContByte]
        omega
      rw [show ([0xC0 + c.toNat / 64, 0x80 + c.toNat % 64] ++ bs) =
        (0xC0 + c.toNat / 64) :: (0x80 + c.toNat % 64) :: bs from rfl,
        utf8Dec.eq_def]
      dsimp only
      rw [if_neg hb1, if_neg hb2, if_pos hb3, if_pos hcont]
      rw [show (0xC0 + c.toNat / 64 - 0xC0) * 64 + (0x80 + c.toNat % 64 - 0x80) =
        c.toNat from by omega, Char.ofNat_toNat]
    · by_cases h3 : c.toNat < 0x10000
      · rw [if_neg h1, if_neg h2, if_pos h3]
        have hb1 : ¬ (0xE0 + c.toNat / 4096 < 0x80) := by omega
        have hb2 : ¬ (0xE0 + c.toNat / 4096 < 0xC2) := by omega
        have hb3 : ¬ (0xE0 + c.toNat / 4096 < 0xE0) := by omega
        have hb4 : 0xE0 + c.toNat / 4096 < 0xF0 := by omega
        have hvc : validCont3 (0xE0 + c.toNat / 4096)
            (0x80 + c.toNat / 64 % 64) = true := by
          unfold validCont3
          split_ifs with hE0 hED
          · simp
            omega
          · simp
            omega
          · simp [isContByte]
            omega
        have hcont : isContByte (0x80 + c.toNat % 64) = true := by
          simp [isContByte]
          omega
        rw [show ([0xE0 + c.toNat / 4096, 0x80 + c.toNat / 64 % 64,
            0x80 + c.toNat % 64] ++ bs) =
          (0xE0 + c.toNat / 4096) :: (0x80 + c.toNat / 64 % 64) ::
            (0x80 + c.toNat % 64) :: bs from rfl,
          utf8Dec.eq_def]
        dsimp only
        rw [if_neg hb1, if_neg hb2, if_neg hb3, if_pos hb4, if_pos hvc,
          if_pos hcont]
        rw [show (0xE0 + c.toNat / 4096 - 0xE0) * 4096 +
            (0x80 + c.toNat / 64 % 64 - 0x80) * 64 +
            (0x80 + c.toNat % 64 - 0x80) = c.toNat from by omega,
          Char.ofNat_toNat]
      · rw [if_neg h1, if_neg h2, if_neg h3]
        have hlt : c.toNat < 0x110000 := by omega
        have hb1 : ¬ (0xF0 + c.toNat / 262144 < 0x80) := by omega
        have hb2 : ¬ (0xF0 + c.toNat / 262144 < 0xC2) := by omega
        have hb3 : ¬ (0xF0 + c.toNat / 262144 < 0xE0) := by omega
        have hb4 : ¬ (0xF0 + c.toNat / 262144 < 0xF0) := by omega
        have hb5 : 0xF0 + c.toNat / 262144 < 0xF5 := by omega
        have hvc : validCont4 (0xF0 + c.toNat / 262144)
            (0x80 + c.toNat / 4096 % 64) = true := by
          unfold validCont4
          split_ifs with hF0 hF4
          · simp
            omega
          · simp
            omega
          · simp [isContByte]
            omega
        have hcont2 : isContByte (0x80 + c.toNat / 64 % 64) = true := by
          simp [isContByte]
          omega
        have hcont3 : isContByte (0x80 + c.toNat % 64) = true := by
          simp [isContByte]
          omega
        rw [show ([0xF0 + c.toNat / 262144, 0x80 + c.toNat / 4096 % 64,
            0x80 + c.toNat / 64 % 64, 0x80 + c.toNat % 64] ++ bs) =
          (0xF0 + c.toNat / 262144) :: (0x80 + c.toNat / 4096 % 64) ::
            (0x80 + c.toNat / 64 % 64) :: (0x80 + c.toNat % 64) :: bs from rfl,
          utf8Dec.eq_def]
        dsimp only
        rw [if_neg hb1, if_neg hb2, if_neg hb3, if_neg hb4, if_pos hb5,
          if_pos hvc, if_pos hcont2, if_pos hcont3]
        rw [show (0xF0 + c.toNat / 262144 - 0xF0) * 262144 +
            (0x80 + c.toNat / 4096 % 64 - 0x80) * 4096 +
            (0x80 + c.toNat / 64 % 64 - 0x80) * 64 +
            (0x80 + c.toNat % 64 - 0x80) = c.toNat from by omega,
          Char.ofNat_toNat]

/-- Decoding a strict byte-prefix of one character's UTF-8 encoding
with the ignore policy yields nothing: the torn tail is dropped. -/
theorem utf8Dec_take_encodeChar (c : Char) (n : Nat)
    (hn : n < (utf8EncodeChar c).length) :
    utf8Dec ((utf8EncodeChar c).take n) = [] := by
  have hv : c.toNat < 0xd800 ∨ (0xdfff < c.toNat ∧ c.toNat < 0x110000) := c.valid
  unfold utf8EncodeChar at hn ⊢
  by_cases h1 : c.toNat < 0x80
  · rw [if_pos h1] at hn ⊢
    simp at hn
    subst hn
    exact utf8Dec_nil
  · by_cases h2 : c.toNat < 0x800
    · rw [if_neg h1, if_pos h2] at hn ⊢
      simp at hn
      have hb1 : ¬ (0xC0 + c.toNat / 64 < 0x80) := by omega
      have hb2 : ¬ (0xC0 + c.toNat / 64 < 0xC2) := by omega
      have hb3 : 0xC0 + c.toNat / 64 < 0xE0 := by omega
      rcases (show n = 0 ∨ n = 1 by omega) with rfl | rfl
      · exact utf8Dec_nil
      · rw [show List.take 1 [0xC0 + c.toNat / 64, 0x80 + c.toNat % 64] =
          [0xC0 + c.toNat / 64] from rfl, utf8Dec.eq_def]
        dsimp only
        rw [if_neg hb1, if_neg hb2, if_pos hb3]
    · by_cases h3 : c.toNat < 0x10000
      · rw [if_neg h1, if_neg h2, if_pos h3] at hn ⊢
        simp at hn
        have hb1 : ¬ (0xE0 + c.toNat / 4096 < 0x80) := by omega
        have hb2 : ¬ (0xE0 + c.toNat / 4096 < 0xC2) := by omega
        have hb3 : ¬ (0xE0 + c.toNat / 4096 < 0xE0) := by omega
        have hb4 : 0xE0 + c.toNat / 4096 < 0xF0 := by omega
        have hvc : validCont3 (0xE0 + c.toNat / 4096)
            (0x80 + c.toNat / 64 % 64) = true := by
          unfold validCont3
          split_ifs with hE0 hED
          · simp
            omega
          · simp
            omega
          · simp [isContByte]
            omega
        rcases (show n = 0 ∨ n = 1 ∨ n = 2 by omega) with rfl | rfl | rfl
        · exact utf8Dec_nil
        · rw [show List.take 1 [0xE0 + c.toNat / 4096, 0x80 + c.toNat / 64 % 64,
            0x80 + c.toNat % 64] = [0xE0 + c.toNat / 4096] from rfl,
            utf8Dec.eq_def]
          dsimp only
          rw [if_neg hb1, if_neg hb2, if_neg hb3, if_pos hb4]
        · rw [show List.take 2 [0xE0 + c.toNat / 4096, 0x80 + c.toNat / 64 % 64,
            0x80 + c.toNat % 64] =
            [0xE0 + c.toNat / 4096, 0x80 + c.toNat / 64 % 64] from rfl,
            utf8Dec.eq_def]
          dsimp only
          rw [if_neg hb1, if_neg hb2, if_neg hb3, if_pos hb4, if_pos hvc]
      · rw [if_neg h1, if_neg h2, if_neg h3] at hn ⊢
        simp at hn
        have hlt : c.toNat < 0x110000 := by omega
        have hb1 : ¬ (0xF0 + c.toNat / 262144 < 0x80) := by omega
        have hb2 : ¬ (0xF0 + c.toNat / 262144 < 0xC2) := by omega
        have hb3 : ¬ (0xF0 + c.toNat / 262144 < 0xE0) := by omega
        have hb4 : ¬ (0xF0 + c.toNat / 262144 < 0xF0) := by omega
        have hb5 : 0xF0 + c.toNat / 262144 < 0xF5 := by omega
        have hvc : validCont4 (0xF0 + c.toNat / 262144)
            (0x80 + c.toNat / 4096 % 64) = true := by
          unfold validCont4
          split_ifs with hF0 hF4
          · simp
            omega
          · simp
            omega
          · simp [isContByte]
            omega
        have hcont2 : isContByte (0x80 + c.toNat / 64 % 64) = true := by
          simp [isContByte]
          omega
        rcases (show n = 0 ∨ n = 1 ∨ n = 2 ∨ n = 3 by omega) with rfl | rfl | rfl | rfl
        · exact utf8Dec_nil
        · rw [show List.take 1 [0xF0 + c.toNat / 262144,
            0x80 + c.toNat / 4096 % 64, 0x80 + c.toNat / 64 % 64,
            0x80 + c.toNat % 64] = [0xF0 + c.toNat / 262144] from rfl,
            utf8Dec.eq_def]
          dsimp only
          rw [if_neg hb1, if_neg hb2, if_neg hb3, if_neg hb4, if_pos hb5]
        · rw [show List.take 2 [0xF0 + c.toNat / 262144,
            0x80 + c.toNat / 4096 % 64, 0x80 + c.toNat / 64 % 64,
            0x80 + c.toNat % 64] =
            [0xF0 + c.toNat / 262144, 0x80 + c.toNat / 4096 % 64] from rfl,
            utf8Dec.eq_def]
          dsimp only
          rw [if_neg hb1, if_neg hb2, if_neg hb3, if_neg hb4, if_pos hb5,
            if_pos hvc]
        · rw [show List.take 3 [0xF0 + c.toNat / 262144,
            0x80 + c.toNat / 4096 % 64, 0x80 + c.toNat / 64 % 64,
            0x80 + c.toNat % 64] =
            [0xF0 + c.toNat / 262144, 0x80 + c.toNat / 4096 % 64,
              0x80 + c.toNat / 64 % 64] from rfl,
            utf8Dec.eq_def]
          dsimp only
          rw [if_neg hb1, if_neg hb2, if_neg hb3, if_neg hb4, if_pos hb5,
            if_pos hvc, if_pos hcont2]

/-- Decoding the first `n` bytes of a string's UTF-8 encoding with the
ignore policy yields a character-prefix of the string whose own
encoding fits in `n` bytes. -/
theorem utf8Dec_take_encode (s : List Char) :
    ∀ n : Nat, ∃ k, utf8Dec ((utf8Encode s).take n) = s.take k ∧
      (utf8Encode (s.take k)).length ≤ n := by
  induction s with
  | nil =>
    intro n
    exact ⟨0, by simp [utf8Encode, utf8Dec], by simp [utf8Encode]⟩
  | cons c t ih =>
    intro n
    have henc : utf8Encode (c :: t) = utf8EncodeChar c ++ utf8Encode t := by
      simp [utf8Encode]
    by_cases hn : (utf8EncodeChar c).length ≤ n
    · obtain ⟨k, hk1, hk2⟩ := ih (n - (utf8EncodeChar c).length)
      refine ⟨k + 1, ?_, ?_⟩
      · rw [henc, List.take_append_eq_append_take, List.take_of_length_le hn,
          utf8Dec_encodeChar, hk1]
        rfl
      · rw [show (c :: t).take (k + 1) = c :: t.take k from rfl]
        have hlen : utf8Encode (c :: t.take k) =
            utf8EncodeChar c ++ utf8Encode (t.take k) := by
          simp [utf8Encode]
        rw [hlen, List.length_append]
        omega
    · refine ⟨0, ?_, by simp [utf8Encode]⟩
      rw [henc, List.take_append_eq_append_take,
        show n - (utf8EncodeChar c).length = 0 from by omega]
      simp only [List.take_zero, List.append_nil]
      rw [utf8Dec_take_encodeChar c n (by omega)]

/-- C7: the storage sanitizer returns text whose UTF-8 encoding is at
most 500 000 bytes, and its result is always a character-prefix of the
cleaned text — truncation happens only at a UTF-8 character boundary
(the torn multi-byte tail is dropped by the ignore-decode), so the
result is valid decodable text. -/
theorem c7_sanitize_byte_cap (text : String) :
    utf8ByteSize (sanitizeTextForStorage text 500000).data ≤ 500000 ∧
    ∃ k, (sanitizeTextForStorage text 500000).data =
      (cleanSubtitleText text).data.take k := by
  unfold sanitizeTextForStorage
  by_cases h1 : text = ""
  · rw [if_pos h1]
    exact ⟨by decide, 0, rfl⟩
  · rw [if_neg h1]
    simp only []
    by_cases h2 : cleanSubtitleText text = ""
    · rw [if_pos h2]
      exact ⟨by decide, 0, rfl⟩
    · rw [if_neg h2]
      by_cases h3 : (utf8Encode (cleanSubtitleText text).data).length ≤ 500000
      · rw [if_pos h3]
        exact ⟨h3, (cleanSubtitleText text).data.length,
          (List.take_length _).symm⟩
      · rw [if_neg h3]
        obtain ⟨k, hk1, hk2⟩ :=
          utf8Dec_take_encode (cleanSubtitleText text).data 500000
        refine ⟨?_, k, hk1⟩
        show (utf8Encode (utf8Dec ((utf8Encode
          (cleanSubtitleText text).data).take 500000))).length ≤ 500000
        rw [hk1]
        exact hk2

end YoutubeRag
